import Mathlib

/-!
Shallow embedding of the training-and-evaluation engine of `train.py` and of
the Wikipedia fetching script `data/wikidata5m/fetch.py`, together with
theorems settling the specification claims about them.

Conventions of the embedding:
* entity / relation IDs are natural numbers, energies and metrics are exact
  rationals (`ℚ`), so every statement is decidable on concrete inputs;
* the modules `data`, `graph`, `text` and `utils` imported by `train.py`
  are not part of the repository snapshot; the capabilities `train.py` uses
  from them are modelled from the spec and carried as explicit function
  arguments / fields (each such definition says so in its doc comment);
* stateful code is embedded as explicit state passing; Python exceptions are
  embedded with `Except`.
-/

namespace BLP

/-- A knowledge-graph triple `(head, tail, rel)`, as produced by the dataset
loader: `head, tail, rel = torch.chunk(triples, chunks=3, dim=1)`. -/
structure Triple where
  head : ℕ
  tail : ℕ
  rel  : ℕ
deriving DecidableEq, Repr

/-- One embedding row (a `dim`-length vector). -/
abbrev Vec := List ℚ

/-- An entity-embedding table of shape `(num_entities, dim)`, row `i` being
entity `i`'s vector. -/
abbrev Table := List Vec

/-- Chunking loop: cut the list into consecutive `take b` slices.  The
`fuel` argument only makes the recursion structural; since every step with
`0 < b` consumes at least one element, `fuel = l.length` unrolls the loop
completely (see `chunkListGo_congr`). -/
def chunkListGo (b : ℕ) : ℕ → List α → List (List α)
  | _, [] => []
  | 0, _ :: _ => []
  | fuel + 1, x :: xs => (x :: xs).take b :: chunkListGo b fuel ((x :: xs).drop b)

/-- Batching as performed by a (non-shuffling) `DataLoader` with
`batch_size = b` and the default `drop_last=False`: the dataset order is cut
into consecutive chunks of `b` items, the final chunk holding the remainder.
(`b = 0` is not a valid `DataLoader` batch size; the embedding returns `[]`
there.) -/
def chunkList (b : ℕ) (l : List α) : List (List α) :=
  if b = 0 then [] else chunkListGo b l.length l

/-- The state of an energy model as consumed by `eval_link_prediction`.
Modelled from the spec: the `graph` module holding `TransE` / `BERTransE` is
not in `src/`, so the model is the record of capabilities `train.py` calls on
it: `num_entities`, `dim`, the text-encoding of one entity's description
(`model.ent_emb` applied after `get_entity_descriptions`, folded into a
function from the entity ID, a snapshot of the current encoder parameters),
and the per-candidate energy scorer `energy_eval` (given the optional
precomputed entity table, lower energy = more plausible). -/
structure Model where
  num_entities : ℕ
  dim : ℕ
  ent_emb : ℕ → Vec
  energy : Option Table → ℕ → ℕ → ℕ → ℚ

/-- Python / torch slice assignment `t[i : i + rows.length] = rows` (for
`i + rows.length ≤ t.length`, which holds at every call site below). -/
def listSetSlice (t : List α) (i : ℕ) (rows : List α) : List α :=
  t.take i ++ rows ++ t.drop (i + rows.length)

/-- The `while idx < model.num_entities` loop of `eval_link_prediction` that
fills the preallocated entity-embedding table: it takes the slice
`all_ents[0][idx : idx + b]` of `arange(num_entities)`, encodes those
entities' descriptions, writes the result into rows `[idx, idx + b)` of the
table, and advances `idx` by `b`.  (For `b = 0` the Python loop would not
terminate; the embedding stops, and every theorem about it assumes
`0 < b`.) -/
def buildLoop (m : Model) (b idx : ℕ) (acc : Table) : Table :=
  if h : idx < m.num_entities ∧ 0 < b then
    buildLoop m b (idx + b)
      (listSetSlice acc idx
        ((((List.range m.num_entities).drop idx).take b).map m.ent_emb))
  else acc
termination_by m.num_entities - idx
decreasing_by omega

/-- The entity-embedding cache built by `eval_link_prediction` for a
`TextGraphDataset`: a `zeros((num_entities, dim))` table filled chunk by
chunk by `buildLoop`, chunk size = the evaluation loader's batch size. -/
def buildTable (m : Model) (b : ℕ) : Table :=
  buildLoop m b 0 (List.replicate m.num_entities (List.replicate m.dim 0))

/-- The chunks of entity IDs processed by the cache builder: consecutive
slices of `arange(num_entities)` of stride `b`. -/
def cacheChunks (n b : ℕ) : List (List ℕ) :=
  chunkList b (List.range n)

/-- `tails_predictions = model.energy_eval(head, all_ents, rel, ent_emb)` for
one triple: the energy of every candidate entity `c ∈ [0, n)` substituted as
tail, with head and relation fixed. -/
def tailsPredictions (E : ℕ → ℕ → ℕ → ℚ) (n : ℕ) (tr : Triple) : List ℚ :=
  (List.range n).map (fun c => E tr.head c tr.rel)

/-- `heads_predictions = model.energy_eval(all_ents, tail, rel, ent_emb)` for
one triple: the energy of every candidate entity `c ∈ [0, n)` substituted as
head, with tail and relation fixed. -/
def headsPredictions (E : ℕ → ℕ → ℕ → ℚ) (n : ℕ) (tr : Triple) : List ℚ :=
  (List.range n).map (fun c => E c tr.tail tr.rel)

/-- `pred_ents = torch.cat((tails_predictions, heads_predictions))` paired
row-wise with `true_ents = torch.cat((tail, head))`: for each triple of the
batch one (candidate-scores, true-entity) pair for the tail substitution,
then one for the head substitution. -/
def batchPairs (E : ℕ → ℕ → ℕ → ℚ) (n : ℕ) (batch : List Triple) :
    List (List ℚ × ℕ) :=
  batch.map (fun tr => (tailsPredictions E n tr, tr.tail)) ++
    batch.map (fun tr => (headsPredictions E n tr, tr.head))

/-- Modelled from the spec (`utils.hit_at_k` / `utils.mrr` are not in
`src/`): the rank of the true entity `t` among the candidate scores `preds`
is `1 +` the number of candidates with strictly lower energy (ties broken in
favour of the lower rank). -/
def rank (preds : List ℚ) (t : ℕ) : ℕ :=
  1 + (preds.filter (fun x => decide (x < preds.getD t 0))).length

/-- Modelled from the spec: `utils.hit_at_k(pred_ents, true_ents, k=10)` is
the fraction of the batch's substitutions whose true entity ranks within the
top 10 (spec: "Hits@10 = fraction of true entities whose rank ≤ 10"). -/
def hitAt10Frac (pairs : List (List ℚ × ℕ)) : ℚ :=
  ((pairs.filter (fun p => decide (rank p.1 p.2 ≤ 10))).length : ℚ) /
    (pairs.length : ℚ)

/-- Modelled from the spec: `utils.mrr(pred_ents, true_ents)` is the mean of
`1 / rank` over the batch's substitutions. -/
def mrrMean (pairs : List (List ℚ × ℕ)) : ℚ :=
  (pairs.map (fun p => ((rank p.1 p.2 : ℚ))⁻¹)).sum / (pairs.length : ℚ)

/-- Errors the evaluator can raise.  `zeroDivisionError` is Python's
`ZeroDivisionError`, raised by `hits / batch_count` when `batch_count = 0`.
`emptyLoaderError` is modelled from the spec ("must fail loudly with
`EmptyLoaderError`"): no such error exists anywhere in the source, the
constructor is present only so the spec's claim can be stated. -/
inductive EvalError where
  | zeroDivisionError
  | emptyLoaderError
deriving DecidableEq, Repr

instance {E R : Type} [DecidableEq E] [DecidableEq R] :
    DecidableEq (Except E R) := fun a b =>
  match a, b with
  | Except.error x, Except.error y =>
    match decEq x y with
    | isTrue h => isTrue (by rw [h])
    | isFalse h => isFalse (by simp [h])
  | Except.error _, Except.ok _ => isFalse (by simp)
  | Except.ok _, Except.error _ => isFalse (by simp)
  | Except.ok x, Except.ok y =>
    match decEq x y with
    | isTrue h => isTrue (by rw [h])
    | isFalse h => isFalse (by simp [h])

/-- The metric loop of `eval_link_prediction` (with `max_num_batches=None`):
iterate over the loader's batches, accumulate `utils.hit_at_k` and
`utils.mrr` per batch, and finally divide both accumulators by
`batch_count`.  In Python that division raises `ZeroDivisionError` when the
loader yielded no batch. -/
def evalScores (E : ℕ → ℕ → ℕ → ℚ) (n b : ℕ) (l : List Triple) :
    Except EvalError (ℚ × ℚ) :=
  let batches := chunkList b l
  if batches.isEmpty then Except.error EvalError.zeroDivisionError
  else Except.ok
    ((batches.map (fun bt => hitAt10Frac (batchPairs E n bt))).sum /
        (batches.length : ℚ),
      (batches.map (fun bt => mrrMean (batchPairs E n bt))).sum /
        (batches.length : ℚ))

/-- The scorer used by the evaluator: `model.energy_eval(..., ent_emb)` where
`ent_emb` is the freshly built table if `loader.dataset` is a
`TextGraphDataset`, and `None` otherwise. -/
def evalScorer (m : Model) (b : ℕ) (isText : Bool) : ℕ → ℕ → ℕ → ℚ :=
  m.energy (if isText then some (buildTable m b) else none)

/-- `eval_link_prediction(model, loader, ...)`: build the entity table (text
datasets only), then run the batched metric loop; returns `(hits, mrr)` or
the raised error. -/
def eval_link_prediction (m : Model) (b : ℕ) (isText : Bool)
    (l : List Triple) : Except EvalError (ℚ × ℚ) :=
  evalScores (evalScorer m b isText) m.num_entities b l

/-- The Hits@10 fraction computed directly over all substitutions of the
whole evaluation set (the whole set as a single batch): the per-substitution
metric the spec describes. -/
def perSubHits (E : ℕ → ℕ → ℕ → ℚ) (n : ℕ) (l : List Triple) : ℚ :=
  hitAt10Frac (batchPairs E n l)

/-- The MRR computed directly over all substitutions of the whole evaluation
set: the per-substitution mean of `1 / rank` the spec describes. -/
def perSubMRR (E : ℕ → ℕ → ℕ → ℚ) (n : ℕ) (l : List Triple) : ℚ :=
  mrrMean (batchPairs E n l)

/-- Number of substitutions of `l` whose true entity ranks within the top
10. -/
def hitsCount (E : ℕ → ℕ → ℕ → ℚ) (n : ℕ) (l : List Triple) : ℕ :=
  ((batchPairs E n l).filter (fun p => decide (rank p.1 p.2 ≤ 10))).length

/-- Sum of `1 / rank` over all substitutions of `l`. -/
def recipSum (E : ℕ → ℕ → ℕ → ℚ) (n : ℕ) (l : List Triple) : ℚ :=
  ((batchPairs E n l).map (fun p => ((rank p.1 p.2 : ℚ))⁻¹)).sum

/-- A tiny concrete model used for counterexamples and witnesses: two
entities, energy `head + 2 · tail` regardless of the table. -/
def Mdemo : Model where
  num_entities := 2
  dim := 1
  ent_emb := fun _ => [0]
  energy := fun _ h t _ => (h : ℚ) + 2 * (t : ℚ)

/-- The persistent training state around an evaluation call: the model's
parameters (relation embeddings, encoder weights, all inside `Model`) and
the autograd accumulator state (abstracted to one rational). -/
structure TrainState where
  model : Model
  autogradState : ℚ

/-- `eval_link_prediction` as a transformer of the persistent training
state: the `@torch.no_grad()`-decorated body only reads the model, tracks no
gradient and assigns no parameter, so the state passes through unchanged;
the entity table `ent_emb` is a Python local rebuilt inside the call and
discarded at return — it occurs neither in `TrainState` nor in the result
type, so it cannot survive the call or be reused by the next one. -/
def eval_link_prediction_run (st : TrainState) (b : ℕ) (isText : Bool)
    (l : List Triple) : Except EvalError (ℚ × ℚ) × TrainState :=
  (eval_link_prediction st.model b isText l, st)

/-! ### Entity summaries (`get_entity_summaries`) -/

/-- A tokenized entity description. -/
abbrev Desc := List Char

/-- `get_entity_summaries(dataset)` as written in the source: it allocates
`torch.empty((num_ents, emb_dim))` and returns it directly — the loop that
would encode each entity's description through the summarizer is commented
out under a `# FIXME`.  `torch.empty` yields arbitrary uninitialized memory,
modelled by an unconstrained `junk` row function; note the summarizer and
the descriptions do not occur as arguments at all. -/
def get_entity_summaries (junk : ℕ → Vec) (numEnts : ℕ) : Table :=
  (List.range numEnts).map junk

/-- Modelled from the spec: "a separate lightweight summary vector is
precomputed per entity (via an auxiliary summarizer)" — what the claim (and
the commented-out loop) say `get_entity_summaries` should return: for each
entity ID, the summarizer's encoding of that entity's description. -/
def get_entity_summaries_spec (summarize : Desc → Vec) (descOf : ℕ → Desc)
    (numEnts : ℕ) : Table :=
  (List.range numEnts).map (fun i => summarize (descOf i))

/-! ### Alignment training loop (`train_linker`) -/

/-- The mutable state of the alignment training loop: the parameters of the
aligner plus graph model (abstract type `P`, both parameter groups of the
one Adam optimizer) and the gradient accumulated in their `.grad` buffers
(abstracted to one rational, `0` = cleared buffers). -/
structure LinkerState (P : Type) where
  params : P
  grad : ℚ

/-- The inner loop `for j, data in enumerate(loader)` of `train_linker`:
one full pass over the triple loader with the current entity's aligned
embedding `e` held fixed; each `loss.backward(retain_graph=True)` adds that
batch's gradient contribution onto the accumulator, and no optimizer step
happens inside the pass.  `gradOf` is the gradient of the loss of one batch
(spec-modelled capability: `RelTransE`'s loss and autograd are not in
`src/`). -/
def linkerInnerPass {P Batch Emb : Type} (gradOf : P → Batch → Emb → ℚ)
    (p : P) (e : Emb) (batches : List Batch) (g : ℚ) : ℚ :=
  batches.foldl (fun acc bt => acc + gradOf p bt e) g

/-- One iteration of the outer `for i in range(dataset.num_ents)` loop:
compute the aligned embedding of entity `i` once (`aligner(tokens, mask,
summaries)`, spec-modelled capability `align`), run one full inner pass
accumulating gradients, then `optimizer.step()` (spec-modelled capability
`stepF`) followed by `optimizer.zero_grad()`. -/
def linkerEntityStep {P Batch Emb : Type} (align : P → ℕ → Emb)
    (gradOf : P → Batch → Emb → ℚ) (stepF : P → ℚ → P)
    (batches : List Batch) (st : LinkerState P) (i : ℕ) : LinkerState P :=
  let e := align st.params i
  let g := linkerInnerPass gradOf st.params e batches st.grad
  { params := stepF st.params g, grad := 0 }

/-- `train_linker`'s double loop: outer over all entity IDs, inner over the
triple loader, starting from the freshly constructed optimizer state. -/
def train_linker {P Batch Emb : Type} (align : P → ℕ → Emb)
    (gradOf : P → Batch → Emb → ℚ) (stepF : P → ℚ → P)
    (batches : List Batch) (numEnts : ℕ) (st0 : LinkerState P) :
    LinkerState P :=
  (List.range numEnts).foldl (linkerEntityStep align gradOf stepF batches) st0

/-! ### Wikipedia fetching script (`data/wikidata5m/fetch.py`) -/

/-- A character string, kept as a character list so that line structure is
explicit. -/
abbrev Str := List Char

/-- Python's `line.rstrip('\n')`: remove every trailing newline. -/
def rstripNL (s : Str) : Str :=
  (s.reverse.dropWhile (fun c => decide (c = '\n'))).reverse

/-- `extract.replace('\n', ' ')`: "Extract text as a single line". -/
def replaceNewlines (s : Str) : Str :=
  s.map (fun c => if c = '\n' then ' ' else c)

/-- The remote data the script consumes, as deterministic per-run mappings:
`sitelink e` is the enwiki title Wikidata reports for entity `e` (`none`
when the entity is missing or has no `enwiki` sitelink), `extract t` is the
raw first-section extract the Wikipedia query responses (continuations
merged) carry for canonical title `t`, and `redirect t` is the redirect
target recorded for requested title `t`. -/
structure FetchOracle where
  sitelink : Str → Option Str
  extract : Str → Option Str
  redirect : Str → Option Str

/-- `if title in redir_titles: title = redir_titles[title]`. -/
def effTitle (o : FetchOracle) (t : Str) : Str :=
  match o.redirect t with
  | some t2 => t2
  | none => t

/-- `get_extracts_from_pages`: keep only pages carrying an `extract`, keyed
by title, the text made single-line by `replace('\n', ' ')`. -/
def get_extracts_from_pages (pages : List (Str × Option Str)) :
    List (Str × Str) :=
  pages.filterMap (fun p => p.2.map (fun x => (p.1, replaceNewlines x)))

/-- Dictionary membership plus lookup `extracts[title]`. -/
def lookupExtract (extracts : List (Str × Str)) (t : Str) : Option Str :=
  (extracts.find? (fun p => p.1 == t)).map (fun p => p.2)

/-- One fetched line of `descriptions-<input>`: rendered as
`<entity_id> <title>: <text>`. -/
structure DescRecord where
  entity : Str
  title : Str
  text : Str
deriving DecidableEq, Repr

/-- `out_file.write(f'{entity} {title}: {extracts[title]}\n')`. -/
def renderDescRecord (r : DescRecord) : Str :=
  r.entity ++ [' '] ++ r.title ++ [':', ' '] ++ r.text ++ ['\n']

/-- The `ent_pages` list built by the first per-chunk loop of
`retrieve_pages`: `(entity, title)` for every entity of the chunk (in chunk
order) whose Wikidata answer is neither `missing` nor without an `enwiki`
sitelink. -/
def entPagesOf (o : FetchOracle) (chunk : List Str) : List (Str × Str) :=
  chunk.filterMap (fun e => (o.sitelink e).map (fun t => (e, t)))

/-- The `extracts` dictionary assembled for one chunk from the Wikipedia
responses (initial request plus `continue` requests) for the chunk's
titles. -/
def extractsOf (o : FetchOracle) (chunk : List Str) : List (Str × Str) :=
  get_extracts_from_pages
    ((entPagesOf o chunk).map (fun p => (effTitle o p.2, o.extract (effTitle o p.2))))

/-- The description records written for one chunk by the save loop: one
per `ent_pages` entry whose post-redirect title occurs in `extracts`. -/
def fetchedOf (o : FetchOracle) (chunk : List Str) : List DescRecord :=
  (entPagesOf o chunk).filterMap (fun p =>
    (lookupExtract (extractsOf o chunk) (effTitle o p.2)).map
      (fun x => DescRecord.mk p.1 (effTitle o p.2) x))

/-- The `no-wiki` lines written for one chunk: entities without an enwiki
sitelink (first loop), then `ent_pages` entries whose title has no extract
(save loop). -/
def noWikiOf (o : FetchOracle) (chunk : List Str) : List Str :=
  chunk.filter (fun e => (o.sitelink e).isNone) ++
    ((entPagesOf o chunk).filter (fun p =>
      (lookupExtract (extractsOf o chunk) (effTitle o p.2)).isNone)).map
      (fun p => p.1)

/-- Processing of one `MAX_ENTITIES`-sized chunk in `retrieve_pages`:
(description records written, `no-wiki` entity lines written). -/
def processChunk (o : FetchOracle) (chunk : List Str) :
    List DescRecord × List Str :=
  (fetchedOf o chunk, noWikiOf o chunk)

/-- The per-chunk accumulation of `retrieve_pages`: append the chunk's
output lines to the two files and bump `fetched_count` / `no_wiki_count` by
the number of lines written (in the source each counter is incremented
exactly when the corresponding line is written). -/
def retrieveStep (o : FetchOracle)
    (acc : List DescRecord × List Str × ℕ × ℕ) (chunk : List Str) :
    List DescRecord × List Str × ℕ × ℕ :=
  (acc.1 ++ (processChunk o chunk).1, acc.2.1 ++ (processChunk o chunk).2,
    acc.2.2.1 + (processChunk o chunk).1.length,
    acc.2.2.2 + (processChunk o chunk).2.length)

/-- `retrieve_pages(in_fname)`: read the entity IDs (one per input line,
trailing newline stripped) and walk them in chunks of `MAX_ENTITIES = 50`.
Result: (description records, `no-wiki` lines, `fetched_count`,
`no_wiki_count`). -/
def retrieve_pages (o : FetchOracle) (inputLines : List Str) :
    List DescRecord × List Str × ℕ × ℕ :=
  (chunkList 50 (inputLines.map rstripNL)).foldl (retrieveStep o)
    ([], [], 0, 0)

/-! ### Network retry (`get_retry`) -/

/-- The outcome of one `requests.get(url, params)` call: a response, a
`requests.exceptions.ConnectionError`, or any other exception `e`. -/
inductive ReqOutcome (R E : Type) where
  | ok (r : R)
  | connError
  | err (e : E)
deriving DecidableEq, Repr

/-- The `while True` loop of `get_retry` starting at attempt number `k`,
unrolled for at most `fuel` attempts (the Python loop is unbounded;
`none` means every one of the `fuel` attempts raised a connection error and
the loop is still retrying).  `attempt j` is the outcome of the `j`-th call
of `requests.get(url, params)`.  On a response the loop returns it; on a
`ConnectionError` it performs one `time.sleep(delay)` (counted in the second
component, each of the same fixed `delay`) and retries; any other exception
propagates uncaught. -/
def getRetryFrom {R E : Type} (attempt : ℕ → ReqOutcome R E) (k : ℕ) :
    ℕ → Option (Except E R × ℕ)
  | 0 => none
  | fuel + 1 =>
    match attempt k with
    | .ok r => some (Except.ok r, 0)
    | .err e => some (Except.error e, 0)
    | .connError =>
      (getRetryFrom attempt (k + 1) fuel).map (fun p => (p.1, p.2 + 1))

/-- `get_retry(url, params, delay=5)`: run the retry loop from the first
attempt.  The result type (`Except E R`, with connection errors not a
member of `E`) already records that a connection error can never be
propagated to the caller. -/
def get_retry {R E : Type} (attempt : ℕ → ReqOutcome R E) (fuel : ℕ) :
    Option (Except E R × ℕ) :=
  getRetryFrom attempt 0 fuel

/-- A second concrete model used by witnesses: same text encoder and entity
count as `Mdemo`, different `dim` and scorer. -/
def Mdemo2 : Model where
  num_entities := 2
  dim := 5
  ent_emb := fun _ => [0]
  energy := fun _ _ _ _ => 7

/-- A concrete oracle used by witnesses: entity `Q1` has page `T` whose raw
extract contains a newline; entity `Q2` has no page. -/
def fetchDemoOracle : FetchOracle where
  sitelink := fun e => if e = ['Q', '1'] then some ['T'] else none
  extract := fun t => if t = ['T'] then some ['a', '\n', 'b'] else none
  redirect := fun _ => none

/-- A concrete input file used by witnesses: the line `Q1` (with trailing
newline) and the line `Q2`. -/
def fetchDemoInput : List Str := [['Q', '1', '\n'], ['Q', '2']]

/-!
Helper lemmas
-/

theorem chunkListGo_congr {b : ℕ} (hb : 0 < b) :
    ∀ (fuel1 fuel2 : ℕ) (l : List α), l.length ≤ fuel1 → l.length ≤ fuel2 →
      chunkListGo b fuel1 l = chunkListGo b fuel2 l := by
  intro fuel1
  induction fuel1 with
  | zero =>
    intro fuel2 l h1 h2
    have hnil : l = [] := List.eq_nil_of_length_eq_zero (Nat.le_zero.mp h1)
    subst hnil
    cases fuel2 <;> simp [chunkListGo]
  | succ f1 ih =>
    intro fuel2 l h1 h2
    cases l with
    | nil => cases fuel2 <;> simp [chunkListGo]
    | cons x xs =>
      cases fuel2 with
      | zero => simp at h2
      | succ f2 =>
        simp only [chunkListGo]
        congr 1
        apply ih
        · simp only [List.length_drop, List.length_cons]
          simp only [List.length_cons] at h1
          omega
        · simp only [List.length_drop, List.length_cons]
          simp only [List.length_cons] at h2
          omega

theorem chunkList_nil (b : ℕ) : chunkList b ([] : List α) = [] := by
  unfold chunkList
  cases b <;> simp [chunkListGo]

theorem chunkList_eq_cons {b : ℕ} {l : List α} (hb : 0 < b) (hl : l ≠ []) :
    chunkList b l = l.take b :: chunkList b (l.drop b) := by
  obtain ⟨x, xs, rfl⟩ := List.exists_cons_of_ne_nil hl
  rw [chunkList, if_neg (Nat.pos_iff_ne_zero.mp hb),
    chunkList, if_neg (Nat.pos_iff_ne_zero.mp hb)]
  simp only [List.length_cons, chunkListGo]
  congr 1
  apply chunkListGo_congr hb
  · simp only [List.length_drop, List.length_cons]
    omega
  · exact Nat.le_refl _

theorem chunkList_flatten {b : ℕ} (hb : 0 < b) (l : List α) :
    (chunkList b l).flatten = l := by
  by_cases hl : l = []
  · subst hl
    simp [chunkList_nil]
  · rw [chunkList_eq_cons hb hl, List.flatten_cons,
      chunkList_flatten hb (l.drop b), List.take_append_drop]
termination_by l.length
decreasing_by
  have : 0 < l.length := List.length_pos.mpr hl
  simp only [List.length_drop]
  omega

theorem chunkList_ne_nil {b : ℕ} {l : List α} (hb : 0 < b) (hl : l ≠ []) :
    chunkList b l ≠ [] := by
  rw [chunkList_eq_cons hb hl]
  exact List.cons_ne_nil _ _

theorem chunkList_mem_length {b : ℕ} {l : List α} (hb : 0 < b)
    (hd : b ∣ l.length) : ∀ c ∈ chunkList b l, c.length = b := by
  intro c hc
  by_cases hl : l = []
  · subst hl
    simp [chunkList_nil] at hc
  · have hbl : b ≤ l.length := Nat.le_of_dvd (List.length_pos.mpr hl) hd
    rw [chunkList_eq_cons hb hl, List.mem_cons] at hc
    rcases hc with hc | hc
    · subst hc
      simp only [List.length_take]
      omega
    · exact chunkList_mem_length hb
        (by simpa [List.length_drop] using Nat.dvd_sub' hd dvd_rfl) c hc
termination_by l.length
decreasing_by
  have : 0 < l.length := List.length_pos.mpr hl
  simp only [List.length_drop]
  omega

theorem chunkList_total_length {b : ℕ} {l : List α} (hb : 0 < b)
    (hd : b ∣ l.length) : l.length = b * (chunkList b l).length := by
  conv_lhs => rw [← chunkList_flatten hb l]
  rw [List.length_flatten]
  have hrep : (chunkList b l).map List.length =
      List.replicate (chunkList b l).length b := by
    rw [List.eq_replicate_iff]
    constructor
    · simp
    · intro x hx
      rcases List.mem_map.mp hx with ⟨c, hc, hcx⟩
      rw [← hcx]
      exact chunkList_mem_length hb hd c hc
  rw [hrep, List.sum_replicate, smul_eq_mul, mul_comm]

theorem list_sum_map_div {α : Type _} (L : List α) (f : α → ℚ) (c : ℚ) :
    (L.map (fun x => f x / c)).sum = (L.map f).sum / c := by
  induction L with
  | nil => simp
  | cons a t ih =>
    simp only [List.map_cons, List.sum_cons]
    rw [ih, div_add_div_same]

theorem batchPairs_length (E : ℕ → ℕ → ℕ → ℚ) (n : ℕ) (l : List Triple) :
    (batchPairs E n l).length = 2 * l.length := by
  simp [batchPairs]
  omega

theorem hitsCount_append (E : ℕ → ℕ → ℕ → ℚ) (n : ℕ) (l1 l2 : List Triple) :
    hitsCount E n (l1 ++ l2) = hitsCount E n l1 + hitsCount E n l2 := by
  simp [hitsCount, batchPairs, List.filter_append]
  omega

theorem recipSum_append (E : ℕ → ℕ → ℕ → ℚ) (n : ℕ) (l1 l2 : List Triple) :
    recipSum E n (l1 ++ l2) = recipSum E n l1 + recipSum E n l2 := by
  simp [recipSum, batchPairs]
  ring

theorem hitsCount_flatten (E : ℕ → ℕ → ℕ → ℚ) (n : ℕ)
    (L : List (List Triple)) :
    (L.map (hitsCount E n)).sum = hitsCount E n L.flatten := by
  induction L with
  | nil => simp [hitsCount, batchPairs]
  | cons c t ih =>
    simp only [List.map_cons, List.sum_cons, List.flatten_cons,
      hitsCount_append]
    omega

theorem recipSum_flatten (E : ℕ → ℕ → ℕ → ℚ) (n : ℕ)
    (L : List (List Triple)) :
    (L.map (recipSum E n)).sum = recipSum E n L.flatten := by
  induction L with
  | nil => simp [recipSum, batchPairs]
  | cons c t ih =>
    simp only [List.map_cons, List.sum_cons, List.flatten_cons,
      recipSum_append]
    rw [ih]

theorem hitFrac_eq (E : ℕ → ℕ → ℕ → ℚ) (n : ℕ) (bt : List Triple) :
    hitAt10Frac (batchPairs E n bt) =
      (hitsCount E n bt : ℚ) / ((2 * bt.length : ℕ) : ℚ) := by
  rw [hitAt10Frac, ← hitsCount, batchPairs_length]

theorem mrrMean_eq (E : ℕ → ℕ → ℕ → ℚ) (n : ℕ) (bt : List Triple) :
    mrrMean (batchPairs E n bt) =
      recipSum E n bt / ((2 * bt.length : ℕ) : ℚ) := by
  rw [mrrMean, ← recipSum, batchPairs_length]

theorem evalScores_eq_perSub (E : ℕ → ℕ → ℕ → ℚ) (n : ℕ) {b : ℕ}
    {l : List Triple} (hb : 0 < b) (hl : l ≠ []) (hd : b ∣ l.length) :
    evalScores E n b l = Except.ok (perSubHits E n l, perSubMRR E n l) := by
  have hne : chunkList b l ≠ [] := chunkList_ne_nil hb hl
  have hlen : ∀ c ∈ chunkList b l, c.length = b := chunkList_mem_length hb hd
  have hjoin : (chunkList b l).flatten = l := chunkList_flatten hb l
  have hK : l.length = b * (chunkList b l).length :=
    chunkList_total_length hb hd
  have hKpos : 0 < (chunkList b l).length := List.length_pos.mpr hne
  rw [evalScores, if_neg (by simpa [List.isEmpty_iff] using hne)]
  have hmaph : (chunkList b l).map (fun bt => hitAt10Frac (batchPairs E n bt))
      = (chunkList b l).map (fun bt => (hitsCount E n bt : ℚ) / ((2 * b : ℕ) : ℚ)) := by
    apply List.map_congr_left
    intro bt hbt
    rw [hitFrac_eq, hlen bt hbt]
  have hmapm : (chunkList b l).map (fun bt => mrrMean (batchPairs E n bt))
      = (chunkList b l).map (fun bt => recipSum E n bt / ((2 * b : ℕ) : ℚ)) := by
    apply List.map_congr_left
    intro bt hbt
    rw [mrrMean_eq, hlen bt hbt]
  have hsumh : ((chunkList b l).map (fun bt => (hitsCount E n bt : ℚ))).sum
      = (hitsCount E n l : ℚ) := by
    rw [show (fun bt => ((hitsCount E n bt : ℕ) : ℚ))
        = (fun x : ℕ => (x : ℚ)) ∘ hitsCount E n from rfl]
    rw [← List.map_map, ← Nat.cast_list_sum, hitsCount_flatten, hjoin]
  have hsumm : ((chunkList b l).map (recipSum E n)).sum = recipSum E n l := by
    rw [recipSum_flatten, hjoin]
  have hden : ((2 * b : ℕ) : ℚ) * ((chunkList b l).length : ℚ)
      = ((2 * l.length : ℕ) : ℚ) := by
    push_cast
    rw [hK]
    push_cast
    ring
  congr 1
  refine Prod.ext ?_ ?_
  · show ((chunkList b l).map (fun bt => hitAt10Frac (batchPairs E n bt))).sum
        / ((chunkList b l).length : ℚ) = perSubHits E n l
    rw [hmaph, list_sum_map_div, hsumh, div_div, hden, perSubHits, hitFrac_eq]
  · show ((chunkList b l).map (fun bt => mrrMean (batchPairs E n bt))).sum
        / ((chunkList b l).length : ℚ) = perSubMRR E n l
    rw [hmapm, list_sum_map_div, hsumm, div_div, hden, perSubMRR, mrrMean_eq]

theorem hitsCount_eq_countP (E : ℕ → ℕ → ℕ → ℚ) (n : ℕ) (l : List Triple) :
    hitsCount E n l =
      l.countP (fun tr => decide (rank (tailsPredictions E n tr) tr.tail ≤ 10))
        + l.countP (fun tr => decide (rank (headsPredictions E n tr) tr.head ≤ 10)) := by
  simp [hitsCount, batchPairs, List.filter_append, List.countP_eq_length_filter,
    List.filter_map]
  rfl

theorem hitsCount_perm (E : ℕ → ℕ → ℕ → ℚ) (n : ℕ) {l1 l2 : List Triple}
    (h : l1.Perm l2) : hitsCount E n l1 = hitsCount E n l2 := by
  rw [hitsCount_eq_countP, hitsCount_eq_countP, h.countP_eq, h.countP_eq]

theorem recipSum_eq_map (E : ℕ → ℕ → ℕ → ℚ) (n : ℕ) (l : List Triple) :
    recipSum E n l =
      (l.map (fun tr => ((rank (tailsPredictions E n tr) tr.tail : ℚ))⁻¹)).sum
        + (l.map (fun tr => ((rank (headsPredictions E n tr) tr.head : ℚ))⁻¹)).sum := by
  simp [recipSum, batchPairs, List.map_append, List.sum_append, List.map_map]
  rfl

theorem recipSum_perm (E : ℕ → ℕ → ℕ → ℚ) (n : ℕ) {l1 l2 : List Triple}
    (h : l1.Perm l2) : recipSum E n l1 = recipSum E n l2 := by
  rw [recipSum_eq_map, recipSum_eq_map, (h.map _).sum_eq, (h.map _).sum_eq]

theorem perSubHits_perm (E : ℕ → ℕ → ℕ → ℚ) (n : ℕ) {l1 l2 : List Triple}
    (h : l1.Perm l2) : perSubHits E n l1 = perSubHits E n l2 := by
  rw [perSubHits, perSubHits, hitFrac_eq, hitFrac_eq, hitsCount_perm E n h,
    h.length_eq]

theorem perSubMRR_perm (E : ℕ → ℕ → ℕ → ℚ) (n : ℕ) {l1 l2 : List Triple}
    (h : l1.Perm l2) : perSubMRR E n l1 = perSubMRR E n l2 := by
  rw [perSubMRR, perSubMRR, mrrMean_eq, mrrMean_eq, recipSum_perm E n h,
    h.length_eq]

/-!
Claim theorems
-/

/-- Claim C1, counterexample:  The claim "for every non-empty evaluation set,
the reported Hits@10 and MRR equal the per-substitution fraction / mean,
independent of how the substitutions are grouped into batches" is false as
stated: on the 3-triple evaluation set below with batch size 2 (a full
batch of 2 triples and a ragged final batch of 1), the evaluator reports
MRR `7/8` — the unweighted mean of the two per-batch means `3/4` and `1` —
while the per-substitution mean of `1/rank` is `5/6`. -/
theorem C1_counterexample :
    eval_link_prediction Mdemo 2 false [⟨0, 0, 0⟩, ⟨1, 1, 0⟩, ⟨0, 0, 0⟩] ≠
      Except.ok
        (perSubHits (evalScorer Mdemo 2 false) Mdemo.num_entities
          [⟨0, 0, 0⟩, ⟨1, 1, 0⟩, ⟨0, 0, 0⟩],
        perSubMRR (evalScorer Mdemo 2 false) Mdemo.num_entities
          [⟨0, 0, 0⟩, ⟨1, 1, 0⟩, ⟨0, 0, 0⟩]) := by
  norm_num [eval_link_prediction, evalScores, evalScorer, Mdemo, chunkList,
    chunkListGo, batchPairs, tailsPredictions, headsPredictions, hitAt10Frac,
    mrrMean, rank, perSubHits, perSubMRR, List.range_succ, List.filter_cons,
    List.getD_cons_zero, List.getD_cons_succ]

/-- Claim C1 (amended):  The evaluator reports the unweighted mean over
batches of the per-batch Hits@10 fractions and per-batch MRR means; these
equal the per-substitution fraction of ranks ≤ 10 and the per-substitution
mean of `1/rank` (over all head and tail substitutions) exactly when every
batch holds the same number of triples, i.e. when the batch size divides
the size of the evaluation set. -/
theorem C1_eval_metrics_per_substitution (m : Model) (b : ℕ) (isText : Bool)
    (l : List Triple) (hb : 0 < b) (hl : l ≠ []) (hd : b ∣ l.length) :
    eval_link_prediction m b isText l =
      Except.ok (perSubHits (evalScorer m b isText) m.num_entities l,
        perSubMRR (evalScorer m b isText) m.num_entities l) :=
  evalScores_eq_perSub _ _ hb hl hd

/-- Witness for `C1_eval_metrics_per_substitution` at a concrete input. -/
theorem C1_witness :
    eval_link_prediction Mdemo 2 false [⟨0, 0, 0⟩, ⟨1, 1, 0⟩] =
      Except.ok (perSubHits (evalScorer Mdemo 2 false) Mdemo.num_entities
          [⟨0, 0, 0⟩, ⟨1, 1, 0⟩],
        perSubMRR (evalScorer Mdemo 2 false) Mdemo.num_entities
          [⟨0, 0, 0⟩, ⟨1, 1, 0⟩]) :=
  C1_eval_metrics_per_substitution Mdemo 2 false [⟨0, 0, 0⟩, ⟨1, 1, 0⟩]
    (by decide) (by decide) (by decide)

/-- Claim C2 (confirmed):  For every triple of the evaluation set, the
evaluator scores it inside some loader batch; within any batch containing
it, the concatenated predictions hold the pair (all-entities-as-tail
scores, true tail) and the pair (all-entities-as-head scores, true head);
and each of the two candidate score lists has one energy per entity of
`[0, num_entities)`: entry `c` of the tail pass is the energy of
`(head, c, rel)` and entry `c` of the head pass the energy of
`(c, tail, rel)`. -/
theorem C2_two_full_candidate_passes (m : Model) (b : ℕ) (isText : Bool)
    (l : List Triple) (tr : Triple) (hb : 0 < b) (htr : tr ∈ l) :
    (∃ batch ∈ chunkList b l, tr ∈ batch) ∧
    (∀ batch : List Triple, tr ∈ batch →
      (tailsPredictions (evalScorer m b isText) m.num_entities tr, tr.tail)
          ∈ batchPairs (evalScorer m b isText) m.num_entities batch ∧
      (headsPredictions (evalScorer m b isText) m.num_entities tr, tr.head)
          ∈ batchPairs (evalScorer m b isText) m.num_entities batch) ∧
    (tailsPredictions (evalScorer m b isText) m.num_entities tr).length
        = m.num_entities ∧
    (headsPredictions (evalScorer m b isText) m.num_entities tr).length
        = m.num_entities ∧
    (∀ c, c < m.num_entities →
      (tailsPredictions (evalScorer m b isText) m.num_entities tr).getD c 0
          = evalScorer m b isText tr.head c tr.rel ∧
      (headsPredictions (evalScorer m b isText) m.num_entities tr).getD c 0
          = evalScorer m b isText c tr.tail tr.rel) := by
  refine ⟨?_, ?_, by simp [tailsPredictions], by simp [headsPredictions], ?_⟩
  · rw [← List.mem_flatten]
    rw [chunkList_flatten hb l]
    exact htr
  · intro batch hbatch
    constructor
    · exact List.mem_append_left _ (List.mem_map_of_mem _ hbatch)
    · exact List.mem_append_right _ (List.mem_map_of_mem _ hbatch)
  · intro c hc
    constructor
    · simp [tailsPredictions, List.getD_eq_getElem?_getD, List.getElem?_map,
        List.getElem?_range hc]
    · simp [headsPredictions, List.getD_eq_getElem?_getD, List.getElem?_map,
        List.getElem?_range hc]

/-- Witness for `C2_two_full_candidate_passes` at a concrete input. -/
theorem C2_witness :
    (tailsPredictions (evalScorer Mdemo 2 false) Mdemo.num_entities ⟨0, 0, 0⟩).length
      = Mdemo.num_entities :=
  (C2_two_full_candidate_passes Mdemo 2 false [⟨0, 0, 0⟩] ⟨0, 0, 0⟩
    (by decide) (by decide)).2.2.1

/-- Claim C4, counterexample:  Called on a loader yielding zero batches, the
evaluator does not raise the spec's `EmptyLoaderError`: the accumulators
`hits = mrr = 0.0` are divided by `batch_count = 0`, so Python raises
`ZeroDivisionError` — the division by the batch count does divide by
zero. -/
theorem C4_counterexample :
    eval_link_prediction Mdemo 128 false [] =
        Except.error EvalError.zeroDivisionError ∧
      eval_link_prediction Mdemo 128 false [] ≠
        Except.error EvalError.emptyLoaderError := by
  constructor
  · rfl
  · simp [eval_link_prediction, evalScores, chunkList, chunkListGo]

/-- Claim C4 (amended):  On a loader yielding zero batches the evaluator
still fails loudly rather than reporting a misleading metric, but with
Python's `ZeroDivisionError` from `hits / batch_count`, not with an
`EmptyLoaderError` (which exists nowhere in the code). -/
theorem C4_empty_loader_division_error (m : Model) (b : ℕ) (isText : Bool)
    (l : List Triple) (h : chunkList b l = ([] : List (List Triple))) :
    eval_link_prediction m b isText l =
      Except.error EvalError.zeroDivisionError := by
  simp [eval_link_prediction, evalScores, h]

/-- Witness for `C4_empty_loader_division_error` at a concrete input. -/
theorem C4_witness :
    eval_link_prediction Mdemo 128 true [] =
      Except.error EvalError.zeroDivisionError :=
  C4_empty_loader_division_error Mdemo 128 true [] (by decide)

/-- Claim C5, counterexample:  Reported metrics are not invariant under
permuting the evaluation triples at fixed batch size: feeding the same
three triples in orders `[t0, t1, t0]` and `[t0, t0, t1]` with batch size 2
regroups them into batches with different per-batch means, and the
evaluator reports MRR `7/8` in the first order but `3/4` in the second. -/
theorem C5_counterexample :
    ([⟨0, 0, 0⟩, ⟨1, 1, 0⟩, ⟨0, 0, 0⟩] : List Triple).Perm
        [⟨0, 0, 0⟩, ⟨0, 0, 0⟩, ⟨1, 1, 0⟩] ∧
      eval_link_prediction Mdemo 2 false [⟨0, 0, 0⟩, ⟨1, 1, 0⟩, ⟨0, 0, 0⟩] ≠
        eval_link_prediction Mdemo 2 false [⟨0, 0, 0⟩, ⟨0, 0, 0⟩, ⟨1, 1, 0⟩] := by
  constructor
  · decide
  · norm_num [eval_link_prediction, evalScores, evalScorer, Mdemo, chunkList,
      chunkListGo, batchPairs, tailsPredictions, headsPredictions, hitAt10Frac,
      mrrMean, rank, List.range_succ, List.filter_cons, List.getD_cons_zero,
      List.getD_cons_succ]

/-- Claim C5 (amended):  Reported Hits@10 and MRR are invariant under
permutations of the evaluation triples whenever the batch size divides the
number of triples (all batches full); with a ragged final batch the
reported values can depend on the order. -/
theorem C5_perm_invariance (m : Model) (b : ℕ) (isText : Bool)
    {l1 l2 : List Triple} (hb : 0 < b) (hd : b ∣ l1.length)
    (hp : l1.Perm l2) :
    eval_link_prediction m b isText l1 = eval_link_prediction m b isText l2 := by
  by_cases hl : l1 = []
  · subst hl
    have h2 : l2 = [] := hp.symm.eq_nil
    subst h2
    rfl
  · have hl2 : l2 ≠ [] := by
      intro h2
      exact hl ((h2 ▸ hp).eq_nil)
    have hd2 : b ∣ l2.length := by
      rw [← hp.length_eq]
      exact hd
    rw [eval_link_prediction, eval_link_prediction,
      evalScores_eq_perSub _ _ hb hl hd, evalScores_eq_perSub _ _ hb hl2 hd2,
      perSubHits_perm _ _ hp, perSubMRR_perm _ _ hp]

/-- Witness for `C5_perm_invariance` at a concrete input. -/
theorem C5_witness :
    eval_link_prediction Mdemo 2 false [⟨0, 0, 0⟩, ⟨1, 1, 0⟩] =
      eval_link_prediction Mdemo 2 false [⟨1, 1, 0⟩, ⟨0, 0, 0⟩] :=
  C5_perm_invariance Mdemo 2 false (by decide) (by decide) (by decide)

theorem chunkList_mem_length_le {b : ℕ} {l : List α} (hb : 0 < b) :
    ∀ c ∈ chunkList b l, 0 < c.length ∧ c.length ≤ b := by
  intro c hc
  by_cases hl : l = []
  · subst hl
    simp [chunkList_nil] at hc
  · have hpos : 0 < l.length := List.length_pos.mpr hl
    rw [chunkList_eq_cons hb hl, List.mem_cons] at hc
    rcases hc with hc | hc
    · subst hc
      simp only [List.length_take]
      omega
    · exact chunkList_mem_length_le hb c hc
termination_by l.length
decreasing_by
  simp only [List.length_drop]
  omega

theorem buildLoop_eq (m : Model) {b : ℕ} (hb : 0 < b) (idx : ℕ) (acc : Table)
    (hlen : acc.length = m.num_entities) :
    buildLoop m b idx acc =
      acc.take idx ++ ((List.range m.num_entities).drop idx).map m.ent_emb := by
  by_cases h : idx < m.num_entities
  · rw [buildLoop, dif_pos ⟨h, hb⟩]
    set r := (((List.range m.num_entities).drop idx).take b).map m.ent_emb with hr
    have hrows : r.length = min b (m.num_entities - idx) := by
      simp [hr, List.length_take, List.length_drop, List.length_range]
    have htakelen : (acc.take idx).length = idx := by
      simp only [List.length_take, hlen]
      omega
    have hslice : (listSetSlice acc idx r).length = m.num_entities := by
      simp only [listSetSlice, List.length_append, htakelen, hrows,
        List.length_drop, hlen]
      omega
    rw [buildLoop_eq m hb (idx + b) _ hslice, listSetSlice]
    have hL : (acc.take idx ++ r).length ≤ idx + b := by
      simp only [List.length_append, htakelen, hrows]
      omega
    rw [List.take_append_eq_append_take, List.take_of_length_le hL]
    have hnil : (acc.drop (idx + r.length)).take
        (idx + b - (acc.take idx ++ r).length) = [] := by
      rcases Nat.lt_or_ge (m.num_entities - idx) b with hc | hc
      · rw [List.drop_eq_nil_of_le (by rw [hlen, hrows]; omega)]
        exact List.take_nil
      · have h0 : idx + b - (acc.take idx ++ r).length = 0 := by
          simp only [List.length_append, htakelen, hrows]
          omega
        rw [h0]
        exact List.take_zero _
    rw [hnil, List.append_nil, List.append_assoc]
    congr 1
    rw [hr, ← List.map_append]
    congr 1
    rw [← List.drop_drop, List.take_append_drop]
  · rw [buildLoop, dif_neg (by omega)]
    rw [List.drop_eq_nil_of_le (by simp only [List.length_range]; omega),
      List.take_of_length_le (by omega)]
    simp
termination_by m.num_entities - idx
decreasing_by omega

theorem buildTable_eq_map (m : Model) {b : ℕ} (hb : 0 < b) :
    buildTable m b = (List.range m.num_entities).map m.ent_emb := by
  rw [buildTable, buildLoop_eq m hb 0 _ (by simp)]
  simp

/-- Claim C6, counterexample:  The cache builder's chunks do not all have
size equal to the batch size: with 3 entities and batch size 2 the builder
processes the chunks `[0, 1]` and `[2]`, and the final chunk has size 1. -/
theorem C6_counterexample :
    [2] ∈ cacheChunks 3 2 ∧ ([2] : List ℕ).length ≠ 2 := by
  decide

/-- Claim C6 (amended):  The cache builder walks `arange(num_entities)` in
ascending ID order in consecutive chunks of stride = the evaluation
loader's batch size: the chunks concatenate (in processing order) to
exactly `range num_entities`, are pairwise disjoint, cover every row index
exactly once, and each has size equal to the batch size — except possibly
the final chunk, which is smaller when the batch size does not divide
`num_entities` (all chunks have size `b` exactly when `b ∣ num_entities`).
Consequently the finished table holds, at row `i`, the encoding of entity
`i`'s description.  The table is built only for a text dataset: otherwise
the evaluator passes `None` to the scorer. -/
theorem C6_cache_builder_chunks (m : Model) (b : ℕ) (l : List Triple)
    (hb : 0 < b) :
    (cacheChunks m.num_entities b).flatten = List.range m.num_entities ∧
    List.Pairwise List.Disjoint (cacheChunks m.num_entities b) ∧
    (∀ c ∈ cacheChunks m.num_entities b, 0 < c.length ∧ c.length ≤ b) ∧
    (b ∣ m.num_entities → ∀ c ∈ cacheChunks m.num_entities b, c.length = b) ∧
    buildTable m b = (List.range m.num_entities).map m.ent_emb ∧
    eval_link_prediction m b false l
        = evalScores (m.energy none) m.num_entities b l ∧
    eval_link_prediction m b true l
        = evalScores (m.energy (some (buildTable m b))) m.num_entities b l := by
  have hflat : (cacheChunks m.num_entities b).flatten = List.range m.num_entities :=
    chunkList_flatten hb _
  refine ⟨hflat, ?_, chunkList_mem_length_le hb, ?_, buildTable_eq_map m hb,
    rfl, rfl⟩
  · exact (List.nodup_flatten.mp (hflat ▸ List.nodup_range m.num_entities)).2
  · intro hd
    exact chunkList_mem_length hb (by simpa [List.length_range] using hd)

/-- Witness for `C6_cache_builder_chunks` at a concrete input. -/
theorem C6_witness :
    (cacheChunks Mdemo.num_entities 2).flatten = List.range Mdemo.num_entities :=
  (C6_cache_builder_chunks Mdemo 2 [] (by decide)).1

/-- Claim C3, code_bug evidence:  As written, `get_entity_summaries` returns
the uninitialized `torch.empty((num_ents, emb_dim))` table — the loop that
would encode each entity's description with the summarizer sits commented
out under `# FIXME` — so the rows are arbitrary memory contents, not
summarizer encodings.  The embedded code function evaluates to the junk
rows at the failing input `num_ents = 1` and differs from the spec's table,
whose row is the summarizer's encoding of the entity's description. -/
theorem C3_get_entity_summaries_uninitialized :
    get_entity_summaries (fun _ => [0]) 1 = [[0]] ∧
    get_entity_summaries_spec (fun _ => [1]) (fun _ => []) 1 = [[1]] ∧
    get_entity_summaries (fun _ => [0]) 1 ≠
      get_entity_summaries_spec (fun _ => [1]) (fun _ => []) 1 := by
  refine ⟨rfl, rfl, ?_⟩
  simp [get_entity_summaries, get_entity_summaries_spec]

theorem train_linker_grad_eq_zero {P Batch Emb : Type} (align : P → ℕ → Emb)
    (gradOf : P → Batch → Emb → ℚ) (stepF : P → ℚ → P)
    (batches : List Batch) (st0 : LinkerState P) (h0 : st0.grad = 0) :
    ∀ k, (train_linker align gradOf stepF batches k st0).grad = 0
  | 0 => by simpa [train_linker] using h0
  | k + 1 => by
    rw [train_linker, List.range_succ, List.foldl_append]
    rfl

/-- Claim C7 (confirmed):  In the alignment training loop, the gradient
accumulator is `0` at the start of every outer (per-entity) iteration, and
the iteration for entity `k` performs exactly one optimizer step: it
computes the aligned embedding of entity `k` once from the current
parameters, folds the gradient contributions of one full pass over the
triple loader into an accumulator that starts at `0` (so nothing leaks in
from the previous entity), applies `optimizer.step()` once to that
accumulated gradient, and leaves the accumulator zeroed
(`optimizer.zero_grad()`) for the next entity. -/
theorem C7_per_entity_gradient_scope {P Batch Emb : Type}
    (align : P → ℕ → Emb) (gradOf : P → Batch → Emb → ℚ)
    (stepF : P → ℚ → P) (batches : List Batch) (st0 : LinkerState P)
    (h0 : st0.grad = 0) (k : ℕ) :
    (train_linker align gradOf stepF batches k st0).grad = 0 ∧
    train_linker align gradOf stepF batches (k + 1) st0 =
      { params := stepF (train_linker align gradOf stepF batches k st0).params
          (linkerInnerPass gradOf
            (train_linker align gradOf stepF batches k st0).params
            (align (train_linker align gradOf stepF batches k st0).params k)
            batches 0),
        grad := 0 } := by
  refine ⟨train_linker_grad_eq_zero align gradOf stepF batches st0 h0 k, ?_⟩
  have hg := train_linker_grad_eq_zero align gradOf stepF batches st0 h0 k
  rw [train_linker, List.range_succ, List.foldl_append]
  simp only [List.foldl_cons, List.foldl_nil]
  rw [show (List.range k).foldl (linkerEntityStep align gradOf stepF batches) st0
      = train_linker align gradOf stepF batches k st0 from rfl]
  rw [linkerEntityStep, hg]

/-- Witness for `C7_per_entity_gradient_scope` at a concrete input. -/
theorem C7_witness :
    (train_linker (fun _ _ => (0 : ℚ)) (fun _ _ _ => (1 : ℚ))
      (fun p g => p + g) [(), ()] 3 ⟨5, 0⟩).grad = 0 :=
  (C7_per_entity_gradient_scope (fun _ _ => (0 : ℚ))
    (fun (_ : ℚ) (_ : Unit) (_ : ℚ) => (1 : ℚ)) (fun p g => p + g)
    [(), ()] ⟨5, 0⟩ rfl 3).1

/-- Claim C8 (confirmed):  The evaluation call leaves the persistent training
state (model parameters and autograd state) exactly as it was; its result
is a pure function of that state; for a text dataset the scorer receives
the table `buildTable`, freshly computed inside the call from the model
passed at call time (a snapshot: any model agreeing with the current one on
the text encoder and the entity count yields the same table, so the table
is exactly determined by the encoder parameters at call time and must be —
and is — rebuilt after they change).  The table itself appears neither in
`TrainState` nor in the call's result, so it cannot be reused by a later
call. -/
theorem C8_eval_is_pure_snapshot (st : TrainState) (b : ℕ) (isText : Bool)
    (l : List Triple) (m' : Model) (hb : 0 < b)
    (henc : m'.ent_emb = st.model.ent_emb)
    (hn : m'.num_entities = st.model.num_entities) :
    (eval_link_prediction_run st b isText l).2 = st ∧
    (eval_link_prediction_run st b isText l).1
        = eval_link_prediction st.model b isText l ∧
    eval_link_prediction st.model b true l
        = evalScores (st.model.energy (some (buildTable st.model b)))
            st.model.num_entities b l ∧
    buildTable m' b = buildTable st.model b := by
  refine ⟨rfl, rfl, rfl, ?_⟩
  rw [buildTable_eq_map m' hb, buildTable_eq_map st.model hb, henc, hn]

/-- Witness for `C8_eval_is_pure_snapshot` at a concrete input. -/
theorem C8_witness : buildTable Mdemo2 1 = buildTable Mdemo 1 :=
  (C8_eval_is_pure_snapshot ⟨Mdemo, 3⟩ 1 false [] Mdemo2 (by decide)
    rfl rfl).2.2.2

theorem getRetryFrom_ok {R E : Type} (attempt : ℕ → ReqOutcome R E)
    (k fuel : ℕ) (r : R) (h : attempt k = ReqOutcome.ok r) :
    getRetryFrom attempt k (fuel + 1) = some (Except.ok r, 0) := by
  simp [getRetryFrom, h]

theorem getRetryFrom_conn {R E : Type} (attempt : ℕ → ReqOutcome R E)
    (k fuel : ℕ) (h : attempt k = ReqOutcome.connError) :
    getRetryFrom attempt k (fuel + 1) =
      (getRetryFrom attempt (k + 1) fuel).map (fun p => (p.1, p.2 + 1)) := by
  simp [getRetryFrom, h]

theorem getRetryFrom_first_ok {R E : Type} (attempt : ℕ → ReqOutcome R E)
    (r : R) :
    ∀ (n k fuel : ℕ), (∀ j, j < n → attempt (k + j) = ReqOutcome.connError) →
      attempt (k + n) = ReqOutcome.ok r → n < fuel →
      getRetryFrom attempt k fuel = some (Except.ok r, n) := by
  intro n
  induction n with
  | zero =>
    intro k fuel hconn hok hf
    obtain ⟨fuel, rfl⟩ : ∃ f, fuel = f + 1 := ⟨fuel - 1, by omega⟩
    exact getRetryFrom_ok attempt k fuel r (by simpa using hok)
  | succ n ih =>
    intro k fuel hconn hok hf
    obtain ⟨fuel, rfl⟩ : ∃ f, fuel = f + 1 := ⟨fuel - 1, by omega⟩
    rw [getRetryFrom_conn attempt k fuel (by simpa using hconn 0 (by omega))]
    have hih := ih (k + 1) fuel
      (fun j hj => by
        rw [show k + 1 + j = k + (j + 1) by omega]
        exact hconn (j + 1) (by omega))
      (by rw [show k + 1 + n = k + (n + 1) by omega]; exact hok)
      (by omega)
    rw [hih]
    rfl

theorem getRetryFrom_all_conn {R E : Type} (attempt : ℕ → ReqOutcome R E)
    (hall : ∀ j, attempt j = ReqOutcome.connError) :
    ∀ (fuel k : ℕ), getRetryFrom attempt k fuel = none := by
  intro fuel
  induction fuel with
  | zero => intro k; rfl
  | succ f ih =>
    intro k
    rw [getRetryFrom_conn attempt k f (hall k), ih (k + 1)]
    rfl

/-- Claim C9 (confirmed):  `get_retry` keeps retrying with a fixed delay as
long as `requests.get` raises a connection error: if the first `n` attempts
raise connection errors and attempt `n` returns a response, the loop
returns exactly that response after exactly `n` sleeps of the fixed delay
(for any unrolling bound large enough to reach it); and while every attempt
raises a connection error the loop just keeps retrying — under no unrolling
bound does it terminate, so a connection error is never escalated (the
result type `Except E R`, with connection errors not in `E`, contains no
way to propagate one). -/
theorem C9_get_retry_policy {R E : Type} (attempt : ℕ → ReqOutcome R E)
    (r : R) (n fuel : ℕ) :
    ((∀ j, j < n → attempt j = ReqOutcome.connError) →
        attempt n = ReqOutcome.ok r → n < fuel →
        get_retry attempt fuel = some (Except.ok r, n)) ∧
      ((∀ j, attempt j = ReqOutcome.connError) →
        get_retry attempt fuel = none) := by
  constructor
  · intro hconn hok hf
    exact getRetryFrom_first_ok attempt r n 0 fuel
      (fun j hj => by simpa using hconn j hj) (by simpa using hok) hf
  · intro hall
    exact getRetryFrom_all_conn attempt hall fuel 0

/-- Witness for `C9_get_retry_policy` at a concrete input: two connection
errors, then a response, returned after exactly two sleeps. -/
theorem C9_witness :
    get_retry
      ((fun k => if k < 2 then ReqOutcome.connError else ReqOutcome.ok 42) :
        ℕ → ReqOutcome ℕ Unit) 5 = some (Except.ok 42, 2) :=
  (C9_get_retry_policy _ 42 2 5).1 (by decide) (by decide) (by decide)

theorem length_filterMap_map_add_filter_none {α β γ : Type _}
    (g : α → Option β) (mk2 : α → β → γ) (l : List α) :
    (l.filterMap (fun a => (g a).map (mk2 a))).length
        + (l.filter (fun a => (g a).isNone)).length = l.length := by
  induction l with
  | nil => rfl
  | cons a t ih =>
    cases hga : g a with
    | none =>
      simp only [List.filterMap_cons, List.filter_cons, hga, Option.map_none',
        Option.isNone_none, if_pos, List.length_cons]
      omega
    | some x =>
      simp only [List.filterMap_cons, List.filter_cons, hga, Option.map_some',
        Option.isNone_some, Bool.false_eq_true, if_false, List.length_cons]
      omega

theorem map_filterMap_map {α β γ δ : Type _} (g : α → Option β)
    (mk2 : α → β → γ) (sel : γ → δ) (sel2 : α → δ)
    (hsel : ∀ a x, sel (mk2 a x) = sel2 a) (l : List α) :
    (l.filterMap (fun a => (g a).map (mk2 a))).map sel
      = (l.filter (fun a => (g a).isSome)).map sel2 := by
  induction l with
  | nil => rfl
  | cons a t ih =>
    cases hga : g a with
    | none => simp [List.filterMap_cons, List.filter_cons, hga, ih]
    | some x => simp [List.filterMap_cons, List.filter_cons, hga, ih, hsel]

theorem filter_isSome_isNone_perm {α β : Type _} (F : α → Option β)
    (l : List α) :
    (l.filter (fun a => (F a).isSome) ++ l.filter (fun a => (F a).isNone)).Perm
      l := by
  induction l with
  | nil => simp
  | cons a t ih =>
    cases hFa : F a with
    | none =>
      simp only [List.filter_cons, hFa, Option.isSome_none, Option.isNone_none,
        Bool.false_eq_true, if_false, if_pos]
      exact List.perm_middle.trans (ih.cons a)
    | some x =>
      simp only [List.filter_cons, hFa, Option.isSome_some, Option.isNone_some,
        Bool.false_eq_true, if_false, if_pos, List.cons_append]
      exact ih.cons a

theorem three_append_perm {α : Type _} (F N1 N2 t1 t2 : List α)
    (h12 : (F ++ N2).Perm t1) (h3 : (t1 ++ N1).Perm t2) :
    (F ++ (N1 ++ N2)).Perm t2 := by
  have h0 : (F ++ (N1 ++ N2)).Perm ((F ++ N2) ++ N1) := by
    have hc := List.Perm.append_left F (@List.perm_append_comm α N1 N2)
    have he : F ++ (N2 ++ N1) = (F ++ N2) ++ N1 := (List.append_assoc F N2 N1).symm
    rw [he] at hc
    exact hc
  exact h0.trans ((h12.append_right N1).trans h3)

theorem processChunk_count (o : FetchOracle) (chunk : List Str) :
    (processChunk o chunk).1.length + (processChunk o chunk).2.length
      = chunk.length := by
  have h1 : (entPagesOf o chunk).length
      + (chunk.filter (fun e => (o.sitelink e).isNone)).length = chunk.length :=
    length_filterMap_map_add_filter_none (fun e => o.sitelink e)
      (fun e t => (e, t)) chunk
  have h2 : (fetchedOf o chunk).length
      + ((entPagesOf o chunk).filter (fun p =>
          (lookupExtract (extractsOf o chunk) (effTitle o p.2)).isNone)).length
      = (entPagesOf o chunk).length :=
    length_filterMap_map_add_filter_none
      (fun p : Str × Str => lookupExtract (extractsOf o chunk) (effTitle o p.2))
      (fun (p : Str × Str) x => DescRecord.mk p.1 (effTitle o p.2) x)
      (entPagesOf o chunk)
  show (fetchedOf o chunk).length + (noWikiOf o chunk).length = chunk.length
  rw [noWikiOf, List.length_append, List.length_map]
  omega

theorem processChunk_perm (o : FetchOracle) (chunk : List Str) :
    ((processChunk o chunk).1.map (fun r => r.entity)
        ++ (processChunk o chunk).2).Perm chunk := by
  have hfet : (fetchedOf o chunk).map (fun r => r.entity)
      = ((entPagesOf o chunk).filter (fun p =>
          (lookupExtract (extractsOf o chunk) (effTitle o p.2)).isSome)).map
          (fun p => p.1) :=
    map_filterMap_map
      (fun p : Str × Str => lookupExtract (extractsOf o chunk) (effTitle o p.2))
      (fun (p : Str × Str) x => DescRecord.mk p.1 (effTitle o p.2) x)
      (fun r => r.entity) (fun p => p.1) (fun _ _ => rfl) (entPagesOf o chunk)
  have hids : (entPagesOf o chunk).map (fun p => p.1)
      = chunk.filter (fun e => (o.sitelink e).isSome) := by
    have h := map_filterMap_map (fun e : Str => o.sitelink e)
      (fun (e : Str) t => (e, t)) (fun p => p.1) (fun e => e)
      (fun _ _ => rfl) chunk
    simpa using h
  show ((fetchedOf o chunk).map (fun r => r.entity) ++ noWikiOf o chunk).Perm
    chunk
  rw [noWikiOf]
  refine three_append_perm _ _ _
    (chunk.filter (fun e => (o.sitelink e).isSome)) _ ?_ ?_
  · rw [hfet, ← List.map_append]
    have hp := (filter_isSome_isNone_perm
      (fun p : Str × Str => lookupExtract (extractsOf o chunk) (effTitle o p.2))
      (entPagesOf o chunk)).map (fun p : Str × Str => p.1)
    refine hp.trans ?_
    rw [hids]
  · exact filter_isSome_isNone_perm (fun e : Str => o.sitelink e) chunk

theorem append_exchange_perm {α : Type _} (a x b y : List α) :
    ((a ++ x) ++ (b ++ y)).Perm ((a ++ b) ++ (x ++ y)) := by
  have h1 : (a ++ x) ++ (b ++ y) = a ++ (x ++ (b ++ y)) := by
    rw [List.append_assoc]
  have h2 : (a ++ b) ++ (x ++ y) = a ++ (b ++ (x ++ y)) := by
    rw [List.append_assoc]
  rw [h1, h2]
  apply List.Perm.append_left
  have h3 : x ++ (b ++ y) = (x ++ b) ++ y := (List.append_assoc x b y).symm
  have h4 : b ++ (x ++ y) = (b ++ x) ++ y := (List.append_assoc b x y).symm
  rw [h3, h4]
  exact List.Perm.append_right y (@List.perm_append_comm α x b)

theorem retrieveStep_foldl (o : FetchOracle) (chunks : List (List Str)) :
    ∀ (d : List DescRecord) (w : List Str) (x y : ℕ),
      chunks.foldl (retrieveStep o) (d, w, x, y)
        = (d ++ (chunks.map (fun c => (processChunk o c).1)).flatten,
           w ++ (chunks.map (fun c => (processChunk o c).2)).flatten,
           x + ((chunks.map (fun c => (processChunk o c).1)).flatten).length,
           y + ((chunks.map (fun c => (processChunk o c).2)).flatten).length) := by
  induction chunks with
  | nil =>
    intro d w x y
    simp
  | cons c t ih =>
    intro d w x y
    simp only [List.foldl_cons, retrieveStep]
    rw [ih]
    simp [List.append_assoc, List.length_append, Nat.add_assoc]

theorem flatten_counts (o : FetchOracle) (L : List (List Str)) :
    ((L.map (fun c => (processChunk o c).1)).flatten).length
      + ((L.map (fun c => (processChunk o c).2)).flatten).length
      = L.flatten.length := by
  induction L with
  | nil => rfl
  | cons c t ih =>
    simp only [List.map_cons, List.flatten_cons, List.length_append]
    have hc := processChunk_count o c
    omega

theorem flatten_entities_perm (o : FetchOracle) (L : List (List Str)) :
    (((L.map (fun c => (processChunk o c).1)).flatten).map (fun r => r.entity)
        ++ (L.map (fun c => (processChunk o c).2)).flatten).Perm L.flatten := by
  induction L with
  | nil => simp
  | cons c t ih =>
    simp only [List.map_cons, List.flatten_cons, List.map_append]
    exact (append_exchange_perm _ _ _ _).trans
      (List.Perm.append (processChunk_perm o c) ih)

theorem mem_get_extracts {pages : List (Str × Option Str)} {pr : Str × Str}
    (h : pr ∈ get_extracts_from_pages pages) :
    ∃ raw, (pr.1, some raw) ∈ pages ∧ pr.2 = replaceNewlines raw := by
  rcases List.mem_filterMap.mp h with ⟨p, hp, hpe⟩
  rcases Option.map_eq_some'.mp hpe with ⟨raw, hraw, hmk⟩
  subst hmk
  refine ⟨raw, ?_, rfl⟩
  rw [← hraw]
  simpa using hp

theorem lookupExtract_some {extracts : List (Str × Str)} {t x : Str}
    (h : lookupExtract extracts t = some x) : (t, x) ∈ extracts := by
  rcases Option.map_eq_some'.mp h with ⟨pr, hfind, hx⟩
  have hmem := List.mem_of_find?_eq_some hfind
  have hkeyb := List.find?_some hfind
  have hkey : pr.1 = t := eq_of_beq hkeyb
  obtain ⟨a, b⟩ := pr
  simp only at hkey hx
  rw [← hkey, ← hx]
  exact hmem

theorem replaceNewlines_no_newline (s : Str) : '\n' ∉ replaceNewlines s := by
  intro hmem
  rcases List.mem_map.mp hmem with ⟨c, _, hceq⟩
  by_cases h : c = '\n'
  · rw [if_pos h] at hceq
    exact absurd hceq (by decide)
  · rw [if_neg h] at hceq
    exact h hceq

theorem fetchedOf_spec (o : FetchOracle) (chunk : List Str) :
    ∀ rec ∈ fetchedOf o chunk,
      ∃ raw, o.extract rec.title = some raw ∧ rec.text = replaceNewlines raw := by
  intro rec hrec
  rcases List.mem_filterMap.mp hrec with ⟨p, hp, hpe⟩
  rcases Option.map_eq_some'.mp hpe with ⟨x, hlook, hmk⟩
  subst hmk
  have hmem := lookupExtract_some hlook
  rcases mem_get_extracts hmem with ⟨raw, hpage, hxeq⟩
  rcases List.mem_map.mp hpage with ⟨q, _, hqe⟩
  have h1 : effTitle o q.2 = effTitle o p.2 := congrArg Prod.fst hqe
  have h2 : o.extract (effTitle o q.2) = some raw := congrArg Prod.snd hqe
  refine ⟨raw, ?_, hxeq⟩
  show o.extract (effTitle o p.2) = some raw
  rw [← h1]
  exact h2

theorem renderDescRecord_single_line {rec : DescRecord}
    (he : '\n' ∉ rec.entity) (ht : '\n' ∉ rec.title) (hx : '\n' ∉ rec.text) :
    List.count '\n' (renderDescRecord rec) = 1 := by
  simp only [renderDescRecord, List.count_append]
  rw [List.count_eq_zero_of_not_mem he, List.count_eq_zero_of_not_mem ht,
    List.count_eq_zero_of_not_mem hx]
  decide

/-- Claim C10 (confirmed):  `retrieve_pages` sends every entity occurrence of
the input file to exactly one line of exactly one of its two outputs — the
entity IDs of the description records together with the `no-wiki` lines are
a permutation of the (newline-stripped) input lines, and `fetched_count` /
`no_wiki_count` equal the two files' line counts and sum to the number of
input entities.  Every description record's text is the fetched extract
with newlines replaced by spaces (so it has no embedded newline), and
whenever the entity ID and title themselves contain no newline the rendered
record `<entity_id> <title>: <text>` is a single line (exactly one `'\n'`,
the terminator). -/
theorem C10_retrieve_pages_partition (o : FetchOracle) (input : List Str) :
    (retrieve_pages o input).2.2.1 = (retrieve_pages o input).1.length ∧
    (retrieve_pages o input).2.2.2 = (retrieve_pages o input).2.1.length ∧
    (retrieve_pages o input).2.2.1 + (retrieve_pages o input).2.2.2
        = input.length ∧
    (((retrieve_pages o input).1.map (fun r => r.entity))
        ++ (retrieve_pages o input).2.1).Perm (input.map rstripNL) ∧
    (∀ rec ∈ (retrieve_pages o input).1,
      ('\n' ∉ rec.text) ∧
      (∃ raw, o.extract rec.title = some raw ∧ rec.text = replaceNewlines raw) ∧
      ('\n' ∉ rec.entity → '\n' ∉ rec.title →
        List.count '\n' (renderDescRecord rec) = 1)) := by
  have hflat : (chunkList 50 (input.map rstripNL)).flatten = input.map rstripNL :=
    chunkList_flatten (by omega) _
  have hrp : retrieve_pages o input =
      (((chunkList 50 (input.map rstripNL)).map
          (fun c => (processChunk o c).1)).flatten,
       ((chunkList 50 (input.map rstripNL)).map
          (fun c => (processChunk o c).2)).flatten,
       (((chunkList 50 (input.map rstripNL)).map
          (fun c => (processChunk o c).1)).flatten).length,
       (((chunkList 50 (input.map rstripNL)).map
          (fun c => (processChunk o c).2)).flatten).length) := by
    rw [retrieve_pages, retrieveStep_foldl o (chunkList 50 (input.map rstripNL))
      [] [] 0 0]
    simp
  rw [hrp]
  refine ⟨rfl, rfl, ?_, ?_, ?_⟩
  · have hc := flatten_counts o (chunkList 50 (input.map rstripNL))
    rw [hflat, List.length_map] at hc
    exact hc
  · have hp := flatten_entities_perm o (chunkList 50 (input.map rstripNL))
    rw [hflat] at hp
    exact hp
  · intro rec hrec
    rcases List.mem_flatten.mp hrec with ⟨part, hpart, hrecp⟩
    rcases List.mem_map.mp hpart with ⟨c, _, hceq⟩
    rw [← hceq] at hrecp
    rcases fetchedOf_spec o c rec hrecp with ⟨raw, hext, htext⟩
    have hnl : '\n' ∉ rec.text := by
      rw [htext]
      exact replaceNewlines_no_newline raw
    exact ⟨hnl, ⟨raw, hext, htext⟩,
      fun he ht => renderDescRecord_single_line he ht hnl⟩

/-- Witness for `C10_retrieve_pages_partition` at a concrete input. -/
theorem C10_witness :
    List.count '\n'
      (renderDescRecord (DescRecord.mk ['Q', '1'] ['T'] ['a', ' ', 'b'])) = 1 := by
  have h := (C10_retrieve_pages_partition fetchDemoOracle fetchDemoInput).2.2.2.2
    (DescRecord.mk ['Q', '1'] ['T'] ['a', ' ', 'b']) (by decide)
  exact h.2.2 (by decide) (by decide)

end BLP
